import Mathlib

/-!
Shallow embedding of the real-time PCM streaming pipeline of the
`over-the-wire` repository, and proofs about it.

Sources embedded here:
- `src/lib/audioUtils.ts` : sample codec (`floatToPCM16`, `pcm16ToFloat`),
  level monitor (`calculateVolume`), WAV container encoder (`pcmToWav`).
- `public/pcm-processor.js` : the capture frame accumulator
  (`PCMProcessor.process`).
- `src/components/Connections.tsx` : the transport message handler
  (`handlePCMData`) and the playback scheduler step (`processChunk`).

Conventions of the embedding:
- JavaScript numbers are modelled as exact rationals `ℚ`; the JS value `NaN`
  (which arises in `calculateVolume` on an empty frame, `0/0`) is modelled as
  `none` in `Option ℚ`.
- `Math.sqrt` on a non-negative rational is irrational in general, so the
  square root used by `calculateVolume` is an abstract parameter
  `sqrtFn : ℚ → ℚ`; every theorem below that touches volume values holds for
  all choices of `sqrtFn` (JS `Math.sqrt NaN = NaN` is captured by `Option.map`).
- `Int16Array` elements are integers in [-32768, 32767]; storing an integer
  into an `Int16Array` wraps modulo 2^16 (`toInt16`).
- Byte buffers (`ArrayBuffer`) are lists of bytes `List ℕ` (each < 256).
-/

namespace OverTheWire

/-- `SAMPLE_RATE = 16000` from `audioUtils.ts`. -/
def SAMPLE_RATE : ℕ := 16000

/-- JS `Math.round`: round half toward positive infinity. -/
def jsRound (q : ℚ) : ℤ := ⌊q + 1/2⌋

/-- Storing an integer into an `Int16Array` slot wraps it into
[-32768, 32767] modulo 2^16. -/
def toInt16 (n : ℤ) : ℤ := (n + 32768) % 65536 - 32768

/-- One sample of `floatToPCM16` (`audioUtils.ts`):
`clamped = Math.max(-1, Math.min(1, floatSamples[i]))`;
`pcmSamples[i] = Math.round(clamped * 32767)` (stored in an `Int16Array`). -/
def floatToPCM16one (x : ℚ) : ℤ := toInt16 (jsRound (max (-1) (min 1 x) * 32767))

/-- `floatToPCM16` maps `floatToPCM16one` over the samples. -/
def floatToPCM16 (xs : List ℚ) : List ℤ := xs.map floatToPCM16one

/-- One sample of `pcm16ToFloat` (`audioUtils.ts`):
`floatSamples[i] = pcmSamples[i] / 32767`. -/
def pcm16ToFloatOne (v : ℤ) : ℚ := (v : ℚ) / 32767

/-- `pcm16ToFloat` maps `pcm16ToFloatOne` over the samples. -/
def pcm16ToFloat (vs : List ℤ) : List ℚ := vs.map pcm16ToFloatOne

/-- `calculateVolume` (audioUtils.ts) on a `Float32Array` (`maxValue = 1`):
sum of squared samples, then `Math.sqrt(sum / samples.length) * 100`.
JS `0/0` on an empty array is `NaN` (`none`); `Math.sqrt` and `* 100`
propagate `NaN`. The square root of a non-negative rational is abstracted as
`sqrtFn`. -/
def calculateVolume (sqrtFn : ℚ → ℚ) (samples : List ℚ) : Option ℚ :=
  let sum := (samples.map (fun s => s * s)).sum
  if samples.length = 0 then none
  else some (sqrtFn (sum / samples.length) * 100)

/-- Little-endian `Int16Array` view of two bytes (as `new Int16Array(arrayBuffer)`
reinterprets the buffer). -/
def int16OfBytes (b0 b1 : ℕ) : ℤ := toInt16 (b0 + 256 * b1)

/-- `new Int16Array(arrayBuffer)` on an even-length buffer: consecutive byte
pairs become little-endian signed 16-bit samples. -/
def bytesToInt16 : List ℕ → List ℤ
  | b0 :: b1 :: rest => int16OfBytes b0 b1 :: bytesToInt16 rest
  | _ => []

/-- The playback status messages set by `Connections.tsx`
(`setPlaybackStatus`). -/
inductive PlaybackStatusMsg
  | playingAudio
  | waitingForData
  | stopped
  deriving DecidableEq

/-- The playback-side state of `Connections.tsx`: the React state/refs read
and written by `handlePCMData` and `processChunk`. `volumeLevel` is an
`Option ℚ` because `setVolumeLevel` can receive the JS `NaN` (`none`).
`connected` is the WebSocket's open state; `hasContext` is whether
`audioContext.current` is non-null. -/
structure PlaybackState where
  isPlaying : Bool
  connected : Bool
  hasContext : Bool
  audioQueue : List (List ℚ)
  isPlaybackActive : Bool
  nextPlayTime : ℚ
  volumeLevel : Option ℚ
  deriving DecidableEq

/-- What one call of `handlePCMData` did:
`ignoredNotPlaying` is the early `if (!isPlaying) return;`;
`errorReported` is the catch branch (the `new Int16Array(arrayBuffer)`
constructor throws a `RangeError` on an odd byte length, caught by the
surrounding try/catch which logs the error and returns);
`processed invoked` is the success path, where `invoked` records whether
`processAudioQueue()` was called (`if (!isPlaybackActive.current)`). -/
inductive HandleOutcome
  | ignoredNotPlaying
  | errorReported
  | processed (schedulerInvoked : Bool)
  deriving DecidableEq

/-- `handlePCMData` (Connections.tsx): drop if not playing; reinterpret the
binary payload as int16 samples (throws, hence `errorReported`, on an odd
byte length); decode to floats, compute the volume, push the frame onto
`audioQueue`, and invoke the scheduler loop if it is not already active.
The connection is never touched: `connected` is unchanged in every branch. -/
def handlePCMData (sqrtFn : ℚ → ℚ) (st : PlaybackState) (payload : List ℕ) :
    PlaybackState × HandleOutcome :=
  if st.isPlaying = false then (st, .ignoredNotPlaying)
  else if payload.length % 2 ≠ 0 then (st, .errorReported)
  else
    let floatSamples := pcm16ToFloat (bytesToInt16 payload)
    let volume := calculateVolume sqrtFn floatSamples
    ({ st with volumeLevel := volume,
               audioQueue := st.audioQueue ++ [floatSamples] },
     .processed (!st.isPlaybackActive))

/-- What one `processChunk` step did:
`idle` is the first guard (`!isPlaying || !audioContext.current ||
audioQueue.length === 0`): it clears `isPlaybackActive`, sets the status
message and zeroes the volume, and stops the loop;
`retry` is the `if (!audioData)` branch (unreachable after the guard);
`errorRetry` is the catch branch: `createBuffer(1, 0, ...)` throws on a
zero-length frame, the frame having already been shifted off the queue;
`scheduled start d` is the success path: `source.start(nextPlayTime.current)`
was called with `start`, for a chunk of duration `d` seconds. -/
inductive StepOutcome
  | idle (status : PlaybackStatusMsg)
  | retry
  | errorRetry
  | scheduled (startTime duration : ℚ)
  deriving DecidableEq

/-- `processChunk` (Connections.tsx), one scheduling step, with `cur` the
value of `audioContext.current.currentTime` during the step. On the success
path the code starts the source at `nextPlayTime.current` as-is, then does
`nextPlayTime.current += chunkDuration`, and only then clamps
`nextPlayTime.current` up to `currentTime` if it fell behind. -/
def processChunk (st : PlaybackState) (cur : ℚ) : PlaybackState × StepOutcome :=
  if st.isPlaying = false ∨ st.hasContext = false ∨ st.audioQueue = [] then
    ({ st with isPlaybackActive := false, volumeLevel := some 0 },
     .idle (if st.isPlaying then .waitingForData else .stopped))
  else
    match st.audioQueue with
    | [] => (st, .retry)
    | audioData :: rest =>
      if audioData.length = 0 then
        ({ st with audioQueue := rest }, .errorRetry)
      else
        let startTime := st.nextPlayTime
        let chunkDuration : ℚ := audioData.length / SAMPLE_RATE
        let advanced := st.nextPlayTime + chunkDuration
        let clamped := if advanced < cur then cur else advanced
        ({ st with audioQueue := rest, nextPlayTime := clamped },
         .scheduled startTime chunkDuration)

/-- Iterated scheduling steps: `curs` lists the device-clock reading at each
step; returns the `(start, duration)` pairs of the frames committed by
`source.start`. -/
def runSchedule (st : PlaybackState) : List ℚ → List (ℚ × ℚ)
  | [] => []
  | cur :: curs =>
    let p := processChunk st cur
    match p.2 with
    | .scheduled start d => (start, d) :: runSchedule p.1 curs
    | _ => runSchedule p.1 curs

/-- Iterating `handlePCMData` over a list of arriving payloads (the state
after a sequence of WebSocket messages). -/
def feedPayloads (sqrtFn : ℚ → ℚ) (st : PlaybackState) (payloads : List (List ℕ)) :
    PlaybackState :=
  payloads.foldl (fun s p => (handlePCMData sqrtFn s p).1) st

/-- Little-endian bytes of a 16-bit unsigned value (`DataView.setUint16`). -/
def u16le (n : ℕ) : List ℕ := [n % 256, n / 256 % 256]

/-- Little-endian bytes of a 32-bit unsigned value (`DataView.setUint32`,
which truncates modulo 2^32). -/
def u32le (n : ℕ) : List ℕ :=
  [n % 256, n / 256 % 256, n / 65536 % 256, n / 16777216 % 256]

/-- Little-endian bytes of a signed 16-bit sample (`DataView.setInt16`,
two's complement). -/
def i16le (v : ℤ) : List ℕ := u16le (v % 65536).toNat

/-- Byte codes written by `writeString`: `"RIFF"`. -/
def asciiRIFF : List ℕ := [82, 73, 70, 70]

/-- Byte codes written by `writeString`: `"WAVE"`. -/
def asciiWAVE : List ℕ := [87, 65, 86, 69]

/-- Byte codes written by `writeString`: `"fmt "`. -/
def asciiFmt : List ℕ := [102, 109, 116, 32]

/-- Byte codes written by `writeString`: `"data"`. -/
def asciiData : List ℕ := [100, 97, 116, 97]

/-- The 44-byte header written by `pcmToWav` (audioUtils.ts) for
`numSamples` int16 samples: `bufferLength = 44 + numSamples * 2`, RIFF size
field `bufferLength - 8`, PCM format chunk, byte rate
`sampleRate * numChannels * 2`, block align `numChannels * 2`, 16 bits per
sample, and data size `numSamples * 2`. -/
def wavHeader (numSamples sampleRate numChannels : ℕ) : List ℕ :=
  asciiRIFF ++ u32le (44 + numSamples * 2 - 8) ++ asciiWAVE ++
    asciiFmt ++ u32le 16 ++ u16le 1 ++ u16le numChannels ++ u32le sampleRate ++
    u32le (sampleRate * numChannels * 2) ++ u16le (numChannels * 2) ++
    u16le 16 ++ asciiData ++ u32le (numSamples * 2)

/-- `pcmToWav` (audioUtils.ts): the header followed by the samples as
little-endian int16 bytes. The node-side converter
(`pcm-to-wav-converter.js`) writes the same 44-byte header in front of the
raw bytes. -/
def pcmToWav (pcmSamples : List ℤ) (sampleRate numChannels : ℕ) : List ℕ :=
  wavHeader pcmSamples.length sampleRate numChannels ++ pcmSamples.flatMap i16le

/-- Read four bytes at `off` as a little-endian u32. -/
def readU32le (bytes : List ℕ) (off : ℕ) : ℕ :=
  bytes.getD off 0 + 256 * bytes.getD (off + 1) 0 +
    65536 * bytes.getD (off + 2) 0 + 16777216 * bytes.getD (off + 3) 0

/-- State of the capture frame accumulator (`PCMProcessor` in
pcm-processor.js). The ring buffer `this.buffer` (fixed length `L`) with
write position `this.bufferIndex` is embedded as the list `buf` of its first
`bufferIndex` cells: cells at or beyond the position are stale and never
reach an emitted frame, because the emitted frame (a copy of the whole
buffer) is taken exactly when `bufferIndex` reaches `L`, at which point
every cell has been freshly written. `frames` lists the frames posted so far
via `this.port.postMessage`, in order. -/
structure AccState (α : Type) where
  buf : List α
  frames : List (List α)

/-- One iteration of the sample loop in `PCMProcessor.process`:
`this.buffer[this.bufferIndex] = inputChannel[i]; this.bufferIndex++;`
and when the position reaches the buffer length, post a copy of the buffer
and reset the position to zero. -/
def accumStep {α : Type} (L : ℕ) (st : AccState α) (x : α) : AccState α :=
  let buf' := st.buf ++ [x]
  if L ≤ buf'.length then { buf := [], frames := st.frames ++ [buf'] }
  else { buf := buf', frames := st.frames }

/-- Feeding a whole sample stream through the accumulator, starting empty. -/
def processStream {α : Type} (L : ℕ) (input : List α) : AccState α :=
  input.foldl (accumStep L) { buf := [], frames := [] }

/-- Modelled from the spec: the repository's accumulator (pcm-processor.js)
has no flush operation; spec §8 says the accumulator emits, "on explicit
flush, one partial frame of the remainder". Flush emits the currently
buffered samples. -/
def flushFrame {α : Type} (st : AccState α) : List α := st.buf

/-- A concrete stand-in for the abstract `sqrtFn`, used by witnesses. -/
def sqrtId : ℚ → ℚ := fun q => q

/-- A concrete state with playback not started. -/
def stNotPlaying : PlaybackState :=
  { isPlaying := false, connected := true, hasContext := true,
    audioQueue := [], isPlaybackActive := false, nextPlayTime := 0,
    volumeLevel := some 0 }

/-- A concrete playing state with an empty jitter queue. -/
def stPlaying : PlaybackState :=
  { isPlaying := true, connected := true, hasContext := true,
    audioQueue := [], isPlaybackActive := false, nextPlayTime := 0,
    volumeLevel := some 0 }

/-- A concrete playing state whose queue holds one 16000-sample (1 second)
frame, with `nextPlayTime = 0`. -/
def stOneFrame : PlaybackState :=
  { isPlaying := true, connected := true, hasContext := true,
    audioQueue := [List.replicate 16000 0], isPlaybackActive := true,
    nextPlayTime := 0, volumeLevel := some 0 }

/-- A 4096-sample frame (the nominal capture frame length). -/
def frame4096 : List ℚ := List.replicate 4096 0

/-- A concrete playing state whose queue holds three 4096-sample frames,
with `nextPlayTime = 0` (three frames enqueued back-to-back at device
time 0). -/
def stThreeFrames : PlaybackState :=
  { isPlaying := true, connected := true, hasContext := true,
    audioQueue := [frame4096, frame4096, frame4096], isPlaybackActive := true,
    nextPlayTime := 0, volumeLevel := some 0 }

/-- `stThreeFrames` after its first scheduling step at device time 0. -/
def stThreeFramesB : PlaybackState :=
  { isPlaying := true, connected := true, hasContext := true,
    audioQueue := [frame4096, frame4096], isPlaybackActive := true,
    nextPlayTime := 0.256, volumeLevel := some 0 }

/-- `stThreeFrames` after its second scheduling step at device time 0. -/
def stThreeFramesC : PlaybackState :=
  { isPlaying := true, connected := true, hasContext := true,
    audioQueue := [frame4096], isPlaybackActive := true,
    nextPlayTime := 0.512, volumeLevel := some 0 }

lemma toInt16_eq_self {n : ℤ} (h1 : -32768 ≤ n) (h2 : n < 32768) :
    toInt16 n = n := by
  unfold toInt16
  have h0 : 0 ≤ n + 32768 := by linarith
  have hlt : n + 32768 < 65536 := by linarith
  rw [Int.emod_eq_of_lt h0 hlt]
  ring

lemma jsRound_abs_le (q : ℚ) : |(jsRound q : ℚ) - q| ≤ 1/2 := by
  unfold jsRound
  have h1 : (⌊q + 1/2⌋ : ℚ) ≤ q + 1/2 := Int.floor_le _
  have h2 : q + 1/2 < (⌊q + 1/2⌋ : ℚ) + 1 := Int.lt_floor_add_one _
  rw [abs_le]
  constructor <;> linarith

/-- C7: the sample codec round trip `decode(encode(x))` stays within
`1/32767` of `x` for every sample `x ∈ [-1, 1]` (no such sample can hit the
asymmetric clamp boundary `-32768`, so the exception is vacuous there). -/
theorem sampleCodec_roundTrip (x : ℚ) (h1 : -1 ≤ x) (h2 : x ≤ 1) :
    |pcm16ToFloatOne (floatToPCM16one x) - x| ≤ 1/32767 := by
  have hclamp : max (-1) (min 1 x) = x := by
    rw [min_eq_right h2, max_eq_right h1]
  have habs : |(jsRound (x * 32767) : ℚ) - x * 32767| ≤ 1/2 := jsRound_abs_le _
  set r : ℤ := jsRound (x * 32767) with hr
  have hrlow : -32768 ≤ r := by
    have : (-32768 : ℚ) ≤ (r : ℚ) := by
      rw [abs_le] at habs
      nlinarith
    exact_mod_cast this
  have hrhigh : r < 32768 := by
    have : (r : ℚ) < 32768 := by
      rw [abs_le] at habs
      nlinarith
    exact_mod_cast this
  have henc : floatToPCM16one x = r := by
    unfold floatToPCM16one
    rw [hclamp, ← hr, toInt16_eq_self hrlow hrhigh]
  rw [henc]
  unfold pcm16ToFloatOne
  have hre : (r : ℚ) / 32767 - x = ((r : ℚ) - x * 32767) / 32767 := by ring
  rw [hre, abs_div]
  have h327 : |(32767 : ℚ)| = 32767 := by norm_num
  rw [h327]
  calc |(r : ℚ) - x * 32767| / 32767 ≤ (1/2) / 32767 := by gcongr
    _ ≤ 1/32767 := by norm_num

/-- Witness for C7 at the concrete sample `x = 1/3`. -/
theorem sampleCodec_roundTrip_witness :
    (-1 ≤ (1/3 : ℚ)) ∧ ((1/3 : ℚ) ≤ 1) ∧
      |pcm16ToFloatOne (floatToPCM16one (1/3)) - 1/3| ≤ 1/32767 :=
  ⟨by norm_num, by norm_num,
    sampleCodec_roundTrip (1/3) (by norm_num) (by norm_num)⟩

/-- C9: a payload arriving while `isPlaying` is false is discarded before any
processing: `handlePCMData` returns the state unchanged (in particular the
jitter queue, `nextPlayTime` and the volume level are untouched). -/
theorem handlePCMData_notPlaying_discards (sqrtFn : ℚ → ℚ) (st : PlaybackState)
    (payload : List ℕ) (h : st.isPlaying = false) :
    handlePCMData sqrtFn st payload = (st, .ignoredNotPlaying) := by
  simp [handlePCMData, h]

/-- Witness for C9 at a concrete state and payload. -/
theorem handlePCMData_notPlaying_discards_witness :
    stNotPlaying.isPlaying = false ∧
      handlePCMData sqrtId stNotPlaying [1, 2] = (stNotPlaying, .ignoredNotPlaying) :=
  ⟨rfl, handlePCMData_notPlaying_discards sqrtId stNotPlaying [1, 2] rfl⟩

/-- C10: a zero-length binary payload passes the even-length check
(`0 % 2 = 0`, so `new Int16Array` does not throw) and is processed: the
volume computed for the empty frame is `NaN` (modelled `none`, from `0/0`
under the square root), hence not `some p` for any percentage `p`, and an
empty frame is appended to the jitter queue. -/
theorem handlePCMData_emptyPayload (sqrtFn : ℚ → ℚ) (st : PlaybackState)
    (h : st.isPlaying = true) :
    calculateVolume sqrtFn [] = none ∧
      handlePCMData sqrtFn st [] =
        ({ st with volumeLevel := none, audioQueue := st.audioQueue ++ [[]] },
          .processed (!st.isPlaybackActive)) ∧
      ∀ p : ℚ, (handlePCMData sqrtFn st []).1.volumeLevel ≠ some p := by
  have hvol : calculateVolume sqrtFn ([] : List ℚ) = none := by
    simp [calculateVolume]
  have hmain : handlePCMData sqrtFn st [] =
      ({ st with volumeLevel := none, audioQueue := st.audioQueue ++ [[]] },
        .processed (!st.isPlaybackActive)) := by
    simp [handlePCMData, h, pcm16ToFloat, bytesToInt16, hvol]
  exact ⟨hvol, hmain, fun p => by rw [hmain]; simp⟩

/-- Witness for C10 at a concrete playing state. -/
theorem handlePCMData_emptyPayload_witness :
    stPlaying.isPlaying = true ∧
      (calculateVolume sqrtId [] = none ∧
        handlePCMData sqrtId stPlaying [] =
          ({ stPlaying with volumeLevel := none,
                            audioQueue := stPlaying.audioQueue ++ [[]] },
            .processed (!stPlaying.isPlaybackActive)) ∧
        ∀ p : ℚ, (handlePCMData sqrtId stPlaying []).1.volumeLevel ≠ some p) :=
  ⟨rfl, handlePCMData_emptyPayload sqrtId stPlaying rfl⟩

/-- C8: a scheduling step on an empty queue while playing reports the
waiting/underrun status, clears `isPlaybackActive`, zeroes the reported
volume and leaves `nextPlayTime` unchanged; and the next valid frame
arrival re-invokes the scheduler loop (`processed true`), so playback
resumes automatically. -/
theorem processChunk_underrun (st : PlaybackState) (cur : ℚ) (sqrtFn : ℚ → ℚ)
    (payload : List ℕ) (hplay : st.isPlaying = true) (hq : st.audioQueue = [])
    (heven : payload.length % 2 = 0) :
    processChunk st cur =
      ({ st with isPlaybackActive := false, volumeLevel := some 0 },
        .idle .waitingForData) ∧
      (processChunk st cur).1.nextPlayTime = st.nextPlayTime ∧
      (handlePCMData sqrtFn (processChunk st cur).1 payload).2 = .processed true := by
  have h1 : processChunk st cur =
      ({ st with isPlaybackActive := false, volumeLevel := some 0 },
        .idle .waitingForData) := by
    simp [processChunk, hq, hplay]
  refine ⟨h1, by rw [h1], ?_⟩
  rw [h1]
  simp [handlePCMData, hplay, heven]

/-- Witness for C8 at a concrete playing state with an empty queue. -/
theorem processChunk_underrun_witness :
    stPlaying.isPlaying = true ∧ stPlaying.audioQueue = [] ∧
      ([0, 0] : List ℕ).length % 2 = 0 ∧
      (processChunk stPlaying 5 =
        ({ stPlaying with isPlaybackActive := false, volumeLevel := some 0 },
          .idle .waitingForData) ∧
        (processChunk stPlaying 5).1.nextPlayTime = stPlaying.nextPlayTime ∧
        (handlePCMData sqrtId (processChunk stPlaying 5).1 [0, 0]).2 =
          .processed true) :=
  ⟨rfl, rfl, by decide,
    processChunk_underrun stPlaying 5 sqrtId [0, 0] rfl rfl (by decide)⟩

/-- C5 counterexample: the empty binary payload has byte length `0`, which is
not a positive multiple of 2, yet it is not dropped: `handlePCMData`
processes it and appends an (empty) frame to the jitter queue. -/
theorem oddPayload_claim_counterexample :
    (¬ ∃ k : ℕ, 0 < k ∧ ([] : List ℕ).length = 2 * k) ∧
      (handlePCMData sqrtId stPlaying []).1.audioQueue =
        stPlaying.audioQueue ++ [[]] ∧
      (handlePCMData sqrtId stPlaying []).2 = .processed true := by
  refine ⟨?_, ?_, ?_⟩
  · rintro ⟨k, hk, habs⟩
    simp at habs
    omega
  · rfl
  · rfl

/-- C5 (amended): a binary payload of odd byte length is dropped — the
`Int16Array` constructor throws, the catch reports the error, the state
(queue, volume, `nextPlayTime`, connection) is returned unchanged, and no
close happens. -/
theorem handlePCMData_oddPayload (sqrtFn : ℚ → ℚ) (st : PlaybackState)
    (payload : List ℕ) (hplay : st.isPlaying = true)
    (hodd : payload.length % 2 = 1) :
    handlePCMData sqrtFn st payload = (st, .errorReported) ∧
      (handlePCMData sqrtFn st payload).1.connected = st.connected ∧
      (handlePCMData sqrtFn st payload).1.audioQueue = st.audioQueue := by
  have hne : ¬ payload.length % 2 = 0 := by omega
  have h1 : handlePCMData sqrtFn st payload = (st, .errorReported) := by
    simp [handlePCMData, hplay, hne]
  exact ⟨h1, by rw [h1], by rw [h1]⟩

/-- Witness for the amended C5 at a concrete 3-byte payload. -/
theorem handlePCMData_oddPayload_witness :
    stPlaying.isPlaying = true ∧ ([5, 6, 7] : List ℕ).length % 2 = 1 ∧
      (handlePCMData sqrtId stPlaying [5, 6, 7] = (stPlaying, .errorReported) ∧
        (handlePCMData sqrtId stPlaying [5, 6, 7]).1.connected =
          stPlaying.connected ∧
        (handlePCMData sqrtId stPlaying [5, 6, 7]).1.audioQueue =
          stPlaying.audioQueue) :=
  ⟨rfl, by decide,
    handlePCMData_oddPayload sqrtId stPlaying [5, 6, 7] rfl (by decide)⟩

lemma ite_lt_max (a c : ℚ) : (if a < c then c else a) = max a c := by
  rcases le_or_lt c a with h | h
  · rw [if_neg (not_lt.mpr h), max_eq_left h]
  · rw [if_pos h, max_eq_right h.le]

lemma processChunk_cons (st : PlaybackState) (cur : ℚ)
    (audioData : List ℚ) (rest : List (List ℚ))
    (hplay : st.isPlaying = true) (hctx : st.hasContext = true)
    (hq : st.audioQueue = audioData :: rest) (hne : audioData.length ≠ 0) :
    processChunk st cur =
      ({ st with audioQueue := rest,
                 nextPlayTime :=
                   max (st.nextPlayTime + (audioData.length : ℚ) / (SAMPLE_RATE : ℚ)) cur },
        .scheduled st.nextPlayTime ((audioData.length : ℚ) / (SAMPLE_RATE : ℚ))) := by
  have hguard : ¬(st.isPlaying = false ∨ st.hasContext = false ∨ st.audioQueue = []) := by
    simp [hplay, hctx, hq]
  simp only [processChunk, if_neg hguard, hq]
  simp [hne, ite_lt_max, hplay, hctx]

/-- C1 (amended): on a scheduling step with a non-empty queue the code calls
`source.start` with `nextPlayTime` as-is (not clamped to the device time);
only afterwards is `nextPlayTime` advanced by the frame duration and then
clamped forward, so the committed `nextPlayTime` is
`max (old + duration) currentTime`, which is never earlier than the device
time sampled at that step. -/
theorem processChunk_commit (st : PlaybackState) (cur : ℚ)
    (audioData : List ℚ) (rest : List (List ℚ))
    (hplay : st.isPlaying = true) (hctx : st.hasContext = true)
    (hq : st.audioQueue = audioData :: rest) (hne : audioData.length ≠ 0) :
    processChunk st cur =
      ({ st with audioQueue := rest,
                 nextPlayTime :=
                   max (st.nextPlayTime + (audioData.length : ℚ) / (SAMPLE_RATE : ℚ)) cur },
        .scheduled st.nextPlayTime ((audioData.length : ℚ) / (SAMPLE_RATE : ℚ))) ∧
      cur ≤ (processChunk st cur).1.nextPlayTime := by
  have h1 := processChunk_cons st cur audioData rest hplay hctx hq hne
  refine ⟨h1, ?_⟩
  rw [h1]
  exact le_max_right _ _

/-- Witness for the amended C1 at the one-frame state with device time 10. -/
theorem processChunk_commit_witness :
    stOneFrame.isPlaying = true ∧ stOneFrame.hasContext = true ∧
      stOneFrame.audioQueue = List.replicate 16000 0 :: [] ∧
      (List.replicate 16000 (0 : ℚ)).length ≠ 0 ∧
      (processChunk stOneFrame 10 =
        ({ stOneFrame with
            audioQueue := [],
            nextPlayTime :=
              max (stOneFrame.nextPlayTime +
                ((List.replicate 16000 (0 : ℚ)).length : ℚ) / (SAMPLE_RATE : ℚ)) 10 },
          .scheduled stOneFrame.nextPlayTime
            (((List.replicate 16000 (0 : ℚ)).length : ℚ) / (SAMPLE_RATE : ℚ))) ∧
        (10 : ℚ) ≤ (processChunk stOneFrame 10).1.nextPlayTime) :=
  ⟨rfl, rfl, rfl, by rw [List.length_replicate]; norm_num,
    processChunk_commit stOneFrame 10 (List.replicate 16000 0) [] rfl rfl rfl
      (by rw [List.length_replicate]; norm_num)⟩

/-- C1 counterexample: at `nextPlayTime = 0`, device time `10`, and a 1-second
frame, the code commits the frame at start time `0`, not at
`max nextPlayTime currentTime = 10`, and the advanced `nextPlayTime` is
`10`, not `max nextPlayTime currentTime + duration = 11`. -/
theorem scheduling_claim_counterexample :
    (processChunk stOneFrame 10).2 = .scheduled 0 1 ∧
      (0 : ℚ) ≠ max stOneFrame.nextPlayTime 10 ∧
      (processChunk stOneFrame 10).1.nextPlayTime = 10 ∧
      (10 : ℚ) ≠ max stOneFrame.nextPlayTime 10 + 1 := by
  have h := processChunk_cons stOneFrame 10 (List.replicate 16000 0) [] rfl rfl rfl
    (by rw [List.length_replicate]; norm_num)
  have hd : ((List.replicate 16000 (0 : ℚ)).length : ℚ) / (SAMPLE_RATE : ℚ) = 1 := by
    rw [List.length_replicate]
    norm_num [SAMPLE_RATE]
  have hnp : stOneFrame.nextPlayTime = 0 := rfl
  have hmax : max (0 : ℚ) 10 = 10 := max_eq_right (by norm_num)
  rw [h, hnp, hd]
  refine ⟨rfl, ?_, ?_, ?_⟩
  · rw [hmax]; norm_num
  · show max (0 + 1 : ℚ) 10 = 10
    rw [max_eq_right (by norm_num : (0 + 1 : ℚ) ≤ 10)]
  · rw [hmax]; norm_num

lemma handlePCMData_even_fst (sqrtFn : ℚ → ℚ) (st : PlaybackState) (p : List ℕ)
    (hplay : st.isPlaying = true) (heven : p.length % 2 = 0) :
    (handlePCMData sqrtFn st p).1 =
      { st with
        volumeLevel := calculateVolume sqrtFn (pcm16ToFloat (bytesToInt16 p)),
        audioQueue := st.audioQueue ++ [pcm16ToFloat (bytesToInt16 p)] } := by
  simp [handlePCMData, hplay, heven]

lemma feedPayloads_queue (sqrtFn : ℚ → ℚ) :
    ∀ (payloads : List (List ℕ)) (st : PlaybackState),
      st.isPlaying = true → (∀ p ∈ payloads, p.length % 2 = 0) →
      (feedPayloads sqrtFn st payloads).audioQueue =
        st.audioQueue ++ payloads.map (fun p => pcm16ToFloat (bytesToInt16 p)) ∧
      (feedPayloads sqrtFn st payloads).isPlaying = true := by
  intro payloads
  induction payloads with
  | nil =>
    intro st hplay _
    exact ⟨by simp [feedPayloads], by simpa [feedPayloads] using hplay⟩
  | cons p ps ih =>
    intro st hplay hall
    have hp : p.length % 2 = 0 := hall p (by simp)
    have hstep : feedPayloads sqrtFn st (p :: ps) =
        feedPayloads sqrtFn (handlePCMData sqrtFn st p).1 ps := rfl
    rw [hstep, handlePCMData_even_fst sqrtFn st p hplay hp]
    have hrec := ih
      { st with
        volumeLevel := calculateVolume sqrtFn (pcm16ToFloat (bytesToInt16 p)),
        audioQueue := st.audioQueue ++ [pcm16ToFloat (bytesToInt16 p)] }
      hplay (fun q hq => hall q (by simp [hq]))
    refine ⟨?_, hrec.2⟩
    rw [hrec.1]
    simp

/-- C4 (amended): the jitter queue is unbounded and append-only: every valid
frame arriving while playing is appended in order, nothing is ever dropped,
and the queue length grows by exactly the number of payloads. -/
theorem jitterQueue_unbounded_append (sqrtFn : ℚ → ℚ) (st : PlaybackState)
    (payloads : List (List ℕ)) (hplay : st.isPlaying = true)
    (hall : ∀ p ∈ payloads, p.length % 2 = 0) :
    (feedPayloads sqrtFn st payloads).audioQueue =
      st.audioQueue ++ payloads.map (fun p => pcm16ToFloat (bytesToInt16 p)) ∧
      (feedPayloads sqrtFn st payloads).audioQueue.length =
        st.audioQueue.length + payloads.length := by
  have h := (feedPayloads_queue sqrtFn payloads st hplay hall).1
  exact ⟨h, by rw [h]; simp⟩

/-- Witness for the amended C4 at two concrete payloads. -/
theorem jitterQueue_unbounded_append_witness :
    stPlaying.isPlaying = true ∧
      (∀ p ∈ ([[0, 0], [1, 0]] : List (List ℕ)), p.length % 2 = 0) ∧
      ((feedPayloads sqrtId stPlaying [[0, 0], [1, 0]]).audioQueue =
        stPlaying.audioQueue ++
          ([[0, 0], [1, 0]] : List (List ℕ)).map
            (fun p => pcm16ToFloat (bytesToInt16 p)) ∧
        (feedPayloads sqrtId stPlaying [[0, 0], [1, 0]]).audioQueue.length =
          stPlaying.audioQueue.length +
            ([[0, 0], [1, 0]] : List (List ℕ)).length) :=
  ⟨rfl, by decide,
    jitterQueue_unbounded_append sqrtId stPlaying [[0, 0], [1, 0]] rfl (by decide)⟩

/-- C4 counterexample: there is no bound `B` that the queue length respects —
feeding `B + 1` valid frames while playing makes the queue length `B + 1`.
No drop-oldest (or any drop) exists in `handlePCMData`. -/
theorem boundedQueue_claim_counterexample :
    ¬ ∃ B : ℕ, ∀ n : ℕ,
      (feedPayloads sqrtId stPlaying (List.replicate n [0, 0])).audioQueue.length ≤ B := by
  rintro ⟨B, hB⟩
  have hall : ∀ p ∈ List.replicate (B + 1) ([0, 0] : List ℕ), p.length % 2 = 0 := by
    intro p hp
    rw [List.eq_of_mem_replicate hp]
    decide
  have hq := (feedPayloads_queue sqrtId (List.replicate (B + 1) [0, 0]) stPlaying
    rfl hall).1
  have hlen :
      (feedPayloads sqrtId stPlaying (List.replicate (B + 1) [0, 0])).audioQueue.length
        = B + 1 := by
    rw [hq]
    simp [stPlaying]
  have hcontra := hB (B + 1)
  omega

lemma duration_nonneg (audioData : List ℚ) :
    (0 : ℚ) ≤ (audioData.length : ℚ) / (SAMPLE_RATE : ℚ) := by positivity

lemma guard_split (st : PlaybackState)
    (hg : ¬(st.isPlaying = false ∨ st.hasContext = false ∨ st.audioQueue = [])) :
    st.isPlaying = true ∧ st.hasContext = true ∧ st.audioQueue ≠ [] := by
  push_neg at hg
  refine ⟨?_, ?_, hg.2.2⟩
  · cases h : st.isPlaying
    · exact absurd h hg.1
    · rfl
  · cases h : st.hasContext
    · exact absurd h hg.2.1
    · rfl

lemma processChunk_np_mono (st : PlaybackState) (cur : ℚ) :
    st.nextPlayTime ≤ (processChunk st cur).1.nextPlayTime := by
  by_cases hg : st.isPlaying = false ∨ st.hasContext = false ∨ st.audioQueue = []
  · simp [processChunk, hg]
  · obtain ⟨hplay, hctx, hqne⟩ := guard_split st hg
    obtain ⟨audioData, rest, hq⟩ := List.exists_cons_of_ne_nil hqne
    by_cases hlen : audioData.length = 0
    · simp [processChunk, hq, hlen, hplay, hctx]
    · rw [processChunk_cons st cur audioData rest hplay hctx hq hlen]
      have hd := duration_nonneg audioData
      calc st.nextPlayTime
          ≤ st.nextPlayTime + (audioData.length : ℚ) / (SAMPLE_RATE : ℚ) := by linarith
        _ ≤ max (st.nextPlayTime + (audioData.length : ℚ) / (SAMPLE_RATE : ℚ)) cur :=
            le_max_left _ _

lemma processChunk_scheduled_facts (st : PlaybackState) (cur a d : ℚ)
    (h : (processChunk st cur).2 = .scheduled a d) :
    a = st.nextPlayTime ∧ 0 ≤ d ∧ a + d ≤ (processChunk st cur).1.nextPlayTime := by
  by_cases hg : st.isPlaying = false ∨ st.hasContext = false ∨ st.audioQueue = []
  · simp [processChunk, hg] at h
  · obtain ⟨hplay, hctx, hqne⟩ := guard_split st hg
    obtain ⟨audioData, rest, hq⟩ := List.exists_cons_of_ne_nil hqne
    by_cases hlen : audioData.length = 0
    · simp [processChunk, hq, hlen, hplay, hctx] at h
    · have hc := processChunk_cons st cur audioData rest hplay hctx hq hlen
      rw [hc] at h ⊢
      simp only [StepOutcome.scheduled.injEq] at h
      obtain ⟨ha, hdur⟩ := h
      subst ha
      subst hdur
      exact ⟨rfl, duration_nonneg audioData, le_max_left _ _⟩

lemma runSchedule_cons_scheduled (st st' : PlaybackState) (cur a d : ℚ)
    (curs : List ℚ) (h : processChunk st cur = (st', .scheduled a d)) :
    runSchedule st (cur :: curs) = (a, d) :: runSchedule st' curs := by
  simp [runSchedule, h]

lemma runSchedule_cons_other (st : PlaybackState) (cur : ℚ) (curs : List ℚ)
    (h : ∀ a d, ¬ (processChunk st cur).2 = .scheduled a d) :
    runSchedule st (cur :: curs) = runSchedule (processChunk st cur).1 curs := by
  cases hout : (processChunk st cur).2 with
  | scheduled a d => exact absurd hout (h a d)
  | idle s => simp [runSchedule, hout]
  | retry => simp [runSchedule, hout]
  | errorRetry => simp [runSchedule, hout]

lemma runSchedule_mem_ge :
    ∀ (curs : List ℚ) (st : PlaybackState) (pr : ℚ × ℚ),
      pr ∈ runSchedule st curs → st.nextPlayTime ≤ pr.1 := by
  intro curs
  induction curs with
  | nil =>
    intro st pr h
    simp [runSchedule] at h
  | cons cur rest ih =>
    intro st pr hmem
    have hmono := processChunk_np_mono st cur
    cases hout : (processChunk st cur).2 with
    | scheduled a d =>
      have hsch : processChunk st cur = ((processChunk st cur).1, .scheduled a d) := by
        rw [← hout]
      rw [runSchedule_cons_scheduled st (processChunk st cur).1 cur a d rest hsch]
        at hmem
      have hfacts := processChunk_scheduled_facts st cur a d hout
      rcases List.mem_cons.mp hmem with hpr | hpr
      · rw [hpr]
        exact le_of_eq hfacts.1.symm
      · exact le_trans hmono (ih _ pr hpr)
    | idle s =>
      rw [runSchedule_cons_other st cur rest (by simp [hout])] at hmem
      exact le_trans hmono (ih _ pr hmem)
    | retry =>
      rw [runSchedule_cons_other st cur rest (by simp [hout])] at hmem
      exact le_trans hmono (ih _ pr hmem)
    | errorRetry =>
      rw [runSchedule_cons_other st cur rest (by simp [hout])] at hmem
      exact le_trans hmono (ih _ pr hmem)

lemma runSchedule_chain_le (curs : List ℚ) :
    ∀ st : PlaybackState,
      List.Chain' (fun pr qr : ℚ × ℚ => pr.1 + pr.2 ≤ qr.1) (runSchedule st curs) := by
  induction curs with
  | nil =>
    intro st
    simp [runSchedule]
  | cons cur rest ih =>
    intro st
    cases hout : (processChunk st cur).2 with
    | scheduled a d =>
      have hsch : processChunk st cur = ((processChunk st cur).1, .scheduled a d) := by
        rw [← hout]
      rw [runSchedule_cons_scheduled st (processChunk st cur).1 cur a d rest hsch]
      refine List.chain'_cons'.mpr ⟨?_, ih _⟩
      intro qr hqr
      have hfacts := processChunk_scheduled_facts st cur a d hout
      have hmem := runSchedule_mem_ge rest (processChunk st cur).1 qr
        (List.mem_of_mem_head? hqr)
      exact le_trans hfacts.2.2 hmem
    | idle s =>
      rw [runSchedule_cons_other st cur rest (by simp [hout])]
      exact ih _
    | retry =>
      rw [runSchedule_cons_other st cur rest (by simp [hout])]
      exact ih _
    | errorRetry =>
      rw [runSchedule_cons_other st cur rest (by simp [hout])]
      exact ih _

lemma runSchedule_chain_mono (curs : List ℚ) :
    ∀ st : PlaybackState,
      List.Chain' (fun pr qr : ℚ × ℚ => pr.1 ≤ qr.1) (runSchedule st curs) := by
  induction curs with
  | nil =>
    intro st
    simp [runSchedule]
  | cons cur rest ih =>
    intro st
    cases hout : (processChunk st cur).2 with
    | scheduled a d =>
      have hsch : processChunk st cur = ((processChunk st cur).1, .scheduled a d) := by
        rw [← hout]
      rw [runSchedule_cons_scheduled st (processChunk st cur).1 cur a d rest hsch]
      refine List.chain'_cons'.mpr ⟨?_, ih _⟩
      intro qr hqr
      have hfacts := processChunk_scheduled_facts st cur a d hout
      have hmem := runSchedule_mem_ge rest (processChunk st cur).1 qr
        (List.mem_of_mem_head? hqr)
      have := hfacts.2.1
      have := hfacts.2.2
      linarith
    | idle s =>
      rw [runSchedule_cons_other st cur rest (by simp [hout])]
      exact ih _
    | retry =>
      rw [runSchedule_cons_other st cur rest (by simp [hout])]
      exact ih _
    | errorRetry =>
      rw [runSchedule_cons_other st cur rest (by simp [hout])]
      exact ih _

lemma processChunk_cons_clean (st : PlaybackState) (cur : ℚ)
    (audioData : List ℚ) (rest : List (List ℚ))
    (hplay : st.isPlaying = true) (hctx : st.hasContext = true)
    (hq : st.audioQueue = audioData :: rest) (hne : audioData.length ≠ 0)
    (d : ℚ) (hd : (audioData.length : ℚ) / (SAMPLE_RATE : ℚ) = d)
    (np : ℚ) (hnp : st.nextPlayTime = np)
    (np' : ℚ) (hnp' : max (np + d) cur = np') (stOut : PlaybackState)
    (hout : ({ st with audioQueue := rest, nextPlayTime := np' } : PlaybackState) = stOut) :
    processChunk st cur = (stOut, .scheduled np d) := by
  rw [processChunk_cons st cur audioData rest hplay hctx hq hne, hd, hnp, hnp', hout]

lemma frame4096_len : frame4096.length ≠ 0 := by
  unfold frame4096
  rw [List.length_replicate]
  norm_num

lemma frame4096_dur : (frame4096.length : ℚ) / (SAMPLE_RATE : ℚ) = 0.256 := by
  unfold frame4096
  rw [List.length_replicate]
  norm_num [SAMPLE_RATE]

lemma runSchedule_example :
    runSchedule stThreeFrames [0, 0, 0] =
      [(0, 0.256), (0.256, 0.256), (0.512, 0.256)] := by
  have e1 := processChunk_cons_clean stThreeFrames 0 frame4096 [frame4096, frame4096]
    rfl rfl rfl frame4096_len 0.256 frame4096_dur 0 rfl 0.256
    (by rw [max_eq_left (by norm_num : (0 : ℚ) ≤ 0 + 0.256)]; norm_num)
    stThreeFramesB rfl
  rw [runSchedule_cons_scheduled _ _ _ _ _ _ e1]
  have e2 := processChunk_cons_clean stThreeFramesB
    0 frame4096 [frame4096] rfl rfl rfl frame4096_len 0.256 frame4096_dur 0.256 rfl
    0.512 (by rw [max_eq_left (by norm_num : (0 : ℚ) ≤ 0.256 + 0.256)]; norm_num)
    stThreeFramesC rfl
  rw [runSchedule_cons_scheduled _ _ _ _ _ _ e2]
  have e3 := processChunk_cons_clean stThreeFramesC
    0 frame4096 [] rfl rfl rfl frame4096_len 0.256 frame4096_dur 0.512 rfl
    0.768 (by rw [max_eq_left (by norm_num : (0 : ℚ) ≤ 0.512 + 0.256)]; norm_num)
    ({ stThreeFramesC with audioQueue := [], nextPlayTime := 0.768 }) rfl
  rw [runSchedule_cons_scheduled _ _ _ _ _ _ e3]
  rfl

/-- C6: the start times handed to `source.start` are monotonically
non-decreasing and consecutive starts satisfy
`start (i+1) ≥ start i + duration i`, for every state and every sequence of
device-clock readings; and three 4096-sample frames enqueued back-to-back at
device time 0 with `nextPlayTime = 0` are committed at 0, 0.256 and 0.512
seconds, each with duration 0.256 s. -/
theorem scheduler_ordering :
    (∀ (st : PlaybackState) (curs : List ℚ),
      List.Chain' (fun pr qr : ℚ × ℚ => pr.1 + pr.2 ≤ qr.1) (runSchedule st curs)) ∧
      (∀ (st : PlaybackState) (curs : List ℚ),
        List.Chain' (fun pr qr : ℚ × ℚ => pr.1 ≤ qr.1) (runSchedule st curs)) ∧
      runSchedule stThreeFrames [0, 0, 0] =
        [(0, 0.256), (0.256, 0.256), (0.512, 0.256)] :=
  ⟨fun st curs => runSchedule_chain_le curs st,
    fun st curs => runSchedule_chain_mono curs st,
    runSchedule_example⟩

lemma accum_fold_inv {α : Type} (L : ℕ) (hL : 0 < L) :
    ∀ (input : List α) (st : AccState α),
      st.buf.length < L → (∀ f ∈ st.frames, f.length = L) →
      (input.foldl (accumStep L) st).buf.length < L ∧
        (∀ f ∈ (input.foldl (accumStep L) st).frames, f.length = L) ∧
        (input.foldl (accumStep L) st).frames.flatten ++
            (input.foldl (accumStep L) st).buf
          = st.frames.flatten ++ st.buf ++ input ∧
        (input.foldl (accumStep L) st).frames.length
          = st.frames.length + (st.buf.length + input.length) / L ∧
        (input.foldl (accumStep L) st).buf.length
          = (st.buf.length + input.length) % L := by
  intro input
  induction input with
  | nil =>
    intro st hbuf hfr
    refine ⟨by simpa using hbuf, by simpa using hfr, by simp, ?_, ?_⟩
    · have h0 : (st.buf.length + ([] : List α).length) / L = 0 := by
        rw [List.length_nil, Nat.add_zero]
        exact Nat.div_eq_of_lt hbuf
      rw [h0]
      simp
    · have h0 : (st.buf.length + ([] : List α).length) % L = st.buf.length := by
        rw [List.length_nil, Nat.add_zero]
        exact Nat.mod_eq_of_lt hbuf
      rw [h0]
      simp
  | cons x xs ih =>
    intro st hbuf hfr
    rw [List.foldl_cons]
    by_cases hfull : L ≤ (st.buf ++ [x]).length
    · have hfull' : L ≤ st.buf.length + 1 := by simpa using hfull
      have h1 : st.buf.length + 1 = L := by omega
      have hstep : accumStep L st x =
          { buf := [], frames := st.frames ++ [st.buf ++ [x]] } := by
        simp [accumStep, hfull']
      rw [hstep]
      have hfr1 : ∀ f ∈ st.frames ++ [st.buf ++ [x]], f.length = L := by
        intro f hf
        rcases List.mem_append.mp hf with hf | hf
        · exact hfr f hf
        · rw [List.mem_singleton.mp hf]
          simpa using h1
      obtain ⟨ih1, ih2, ih3, ih4, ih5⟩ :=
        ih { buf := [], frames := st.frames ++ [st.buf ++ [x]] } (by simpa using hL) hfr1
      refine ⟨ih1, ih2, ?_, ?_, ?_⟩
      · rw [ih3]
        simp [List.append_assoc]
      · rw [ih4]
        have harith : st.buf.length + (x :: xs).length = xs.length + L := by
          simp only [List.length_cons]
          omega
        rw [harith, Nat.add_div_right _ hL]
        simp only [List.length_append, List.length_singleton, List.length_nil,
          Nat.zero_add]
        generalize xs.length / L = q
        omega
      · rw [ih5]
        have harith : st.buf.length + (x :: xs).length = xs.length + L := by
          simp only [List.length_cons]
          omega
        rw [harith, Nat.add_mod_right]
        simp
    · have hlt : (st.buf ++ [x]).length < L := lt_of_not_le hfull
      have hlt' : st.buf.length + 1 < L := by simpa using hlt
      have hstep : accumStep L st x = { buf := st.buf ++ [x], frames := st.frames } := by
        simp [accumStep, hlt']
      rw [hstep]
      obtain ⟨ih1, ih2, ih3, ih4, ih5⟩ :=
        ih { buf := st.buf ++ [x], frames := st.frames } hlt hfr
      refine ⟨ih1, ih2, ?_, ?_, ?_⟩
      · rw [ih3]
        simp [List.append_assoc]
      · rw [ih4]
        have harith : (st.buf ++ [x]).length + xs.length =
            st.buf.length + (x :: xs).length := by
          simp
          omega
        rw [harith]
      · rw [ih5]
        have harith : (st.buf ++ [x]).length + xs.length =
            st.buf.length + (x :: xs).length := by
          simp
          omega
        rw [harith]

/-- C3: feeding any stream of `N` samples through the capture accumulator
with frame length `L` emits exactly `N / L` full frames of exactly `L`
samples each, in input order (their concatenation followed by the flush
remainder reconstructs the input), and the flush frame holds the remaining
`N % L` samples, so all `N` samples are accounted for. -/
theorem accumulator_emits {α : Type} (L : ℕ) (hL : 0 < L) (input : List α) :
    (processStream L input).frames.length = input.length / L ∧
      (∀ f ∈ (processStream L input).frames, f.length = L) ∧
      (flushFrame (processStream L input)).length = input.length % L ∧
      (processStream L input).frames.flatten ++ flushFrame (processStream L input)
        = input := by
  obtain ⟨h1, h2, h3, h4, h5⟩ :=
    accum_fold_inv L hL input ⟨[], []⟩ (by simpa using hL) (by intro f hf; simp at hf)
  unfold processStream flushFrame at *
  refine ⟨by simpa using h4, h2, by simpa using h5, by simpa using h3⟩

/-- Witness for C3 with frame length 3 and a 7-sample stream. -/
theorem accumulator_emits_witness :
    0 < 3 ∧
      ((processStream 3 [0, 1, 2, 3, 4, 5, 6] : AccState ℕ).frames.length =
          ([0, 1, 2, 3, 4, 5, 6] : List ℕ).length / 3 ∧
        (∀ f ∈ (processStream 3 ([0, 1, 2, 3, 4, 5, 6] : List ℕ)).frames,
          f.length = 3) ∧
        (flushFrame (processStream 3 ([0, 1, 2, 3, 4, 5, 6] : List ℕ))).length =
          ([0, 1, 2, 3, 4, 5, 6] : List ℕ).length % 3 ∧
        (processStream 3 ([0, 1, 2, 3, 4, 5, 6] : List ℕ)).frames.flatten ++
            flushFrame (processStream 3 ([0, 1, 2, 3, 4, 5, 6] : List ℕ))
          = [0, 1, 2, 3, 4, 5, 6]) :=
  ⟨by norm_num, accumulator_emits 3 (by norm_num) [0, 1, 2, 3, 4, 5, 6]⟩

lemma i16le_length (v : ℤ) : (i16le v).length = 2 := rfl

lemma flatMap_i16le_length (pcm : List ℤ) : (pcm.flatMap i16le).length = 2 * pcm.length := by
  induction pcm with
  | nil => rfl
  | cons v vs ih =>
    simp only [List.flatMap_cons, List.length_append, i16le_length, ih,
      List.length_cons]
    omega

lemma wavHeader_length (n sr c : ℕ) : (wavHeader n sr c).length = 44 := by
  simp [wavHeader, u16le, u32le, asciiRIFF, asciiWAVE, asciiFmt, asciiData]

lemma pcmToWav_length (pcm : List ℤ) (sr c : ℕ) :
    (pcmToWav pcm sr c).length = 44 + pcm.length * 2 := by
  simp only [pcmToWav, List.length_append, wavHeader_length, flatMap_i16le_length]
  omega

lemma readU32le_append (l l' : List ℕ) (off : ℕ) (h : off + 3 < l.length) :
    readU32le (l ++ l') off = readU32le l off := by
  unfold readU32le
  rw [List.getD_append _ _ _ _ (by omega), List.getD_append _ _ _ _ (by omega),
    List.getD_append _ _ _ _ (by omega), List.getD_append _ _ _ _ (by omega)]

lemma pcmToWav_32000_split :
    pcmToWav (List.replicate 32000 0) 16000 1 =
      wavHeader 32000 16000 1 ++ (List.replicate 32000 (0 : ℤ)).flatMap i16le := by
  simp only [pcmToWav, List.length_replicate]

/-- C2 counterexample: encoding 32000 int16 samples at 16000 Hz mono yields a
64044-byte buffer (44-byte header + 64000 sample bytes), not 64108 bytes, and
its RIFF size field (bytes 4–7) reads 64036, not 64100. -/
theorem wav_claim_counterexample :
    (pcmToWav (List.replicate 32000 0) 16000 1).length = 64044 ∧
      (pcmToWav (List.replicate 32000 0) 16000 1).length ≠ 64108 ∧
      readU32le (pcmToWav (List.replicate 32000 0) 16000 1) 4 = 64036 ∧
      readU32le (pcmToWav (List.replicate 32000 0) 16000 1) 4 ≠ 64100 := by
  have hlen : (pcmToWav (List.replicate 32000 0) 16000 1).length = 64044 := by
    rw [pcmToWav_length, List.length_replicate]
  have hread : readU32le (pcmToWav (List.replicate 32000 0) 16000 1) 4 = 64036 := by
    rw [pcmToWav_32000_split,
      readU32le_append _ _ 4 (by rw [wavHeader_length]; omega)]
    decide
  exact ⟨hlen, by rw [hlen]; norm_num, hread, by rw [hread]; norm_num⟩

/-- C2 (amended): encoding 32000 int16 samples at 16000 Hz mono with
`pcmToWav` yields a 64044-byte buffer whose bytes 4–7 read 64036 as a
little-endian u32 and whose bytes 40–43 read 64000 as a little-endian u32. -/
theorem pcmToWav_example :
    (pcmToWav (List.replicate 32000 0) 16000 1).length = 64044 ∧
      readU32le (pcmToWav (List.replicate 32000 0) 16000 1) 4 = 64036 ∧
      readU32le (pcmToWav (List.replicate 32000 0) 16000 1) 40 = 64000 := by
  refine ⟨by rw [pcmToWav_length, List.length_replicate], ?_, ?_⟩
  · rw [pcmToWav_32000_split,
      readU32le_append _ _ 4 (by rw [wavHeader_length]; omega)]
    decide
  · rw [pcmToWav_32000_split,
      readU32le_append _ _ 40 (by rw [wavHeader_length]; omega)]
    decide

end OverTheWire
